import Mathlib

/-!
Shallow embedding of `app.py` (dashboard-ativos-contabeis): the report-line
classifier and record assembler `processar_planilha`, the value normalizer
`converter_valor`, the branch backfill `corrigir_filiais_nao_identificadas`,
the branch-name canonicalizer `padronizar_nome_filial`, and the multi-file
upload batch loop.

Modelling conventions:
* Python strings are `List Char` (`Str`).
* A spreadsheet cell (as produced by `pandas.read_excel(header=None)`) is a
  `Cell`: missing (`NaN`), a string, a number (exact rational in place of a
  float), or a datetime.  Datetimes carry a `Nat` code `y*10000 + m*100 + d`;
  for valid calendar dates the code order agrees with timestamp order.
* `read_excel` pads every row of a sheet to a uniform width with `NaN`, so
  out-of-range column access is modelled as a missing cell (`List.getD`).
* Monetary amounts are exact rationals; the source uses binary floats, but
  every claim under study is about which decimal amounts are produced, not
  about rounding of float arithmetic.
-/

abbrev Str := List Char

/-- One spreadsheet cell as produced by `pandas.read_excel(header=None)`. -/
inductive Cell where
  | empty
  | s (text : Str)
  | n (val : ℚ)
  | date (code : Nat)
deriving DecidableEq

/-- Python `pd.notna`: every cell except a missing one. -/
def notna (c : Cell) : Prop := c ≠ Cell.empty

instance (c : Cell) : Decidable (notna c) := inferInstanceAs (Decidable (c ≠ Cell.empty))

/-- Python `str.strip()`: drop whitespace from both ends. -/
def pyStrip (l : Str) : Str :=
  ((l.dropWhile Char.isWhitespace).reverse.dropWhile Char.isWhitespace).reverse

/-- Python `str.isdigit()`: nonempty and all digits. -/
def pyIsdigit (l : Str) : Bool := !l.isEmpty && l.all Char.isDigit

/-- Numeric value of one ASCII digit character. -/
def digitVal (c : Char) : ℕ := c.toNat - '0'.toNat

/-- Numeric value of a digit string, most significant first. -/
def digitsVal (l : Str) : ℕ := l.foldl (fun a c => 10 * a + digitVal c) 0

/-- Decimal rendering of a natural number (Python `str(int)` for `n ≥ 0`). -/
def natRepr (n : Nat) : Str := Nat.toDigits 10 n

/-- Decimal rendering of an integer (Python `str(int)`). -/
def intRepr (z : Int) : Str := if z < 0 then '-' :: natRepr z.natAbs else natRepr z.natAbs

/-- Two-digit zero-padded rendering, for datetime text. -/
def pad2 (n : Nat) : Str := if n < 10 then '0' :: natRepr n else natRepr n

/-- Fractional digits (six places) of a non-integer rational, for `str(float)`.
Python renders the shortest round-tripping decimal; only the presence of the
decimal point matters to every consumer in this program (the row classifiers
test `isdigit`, a fixed prefix, an infix marker, or equality with `R$`). -/
def fracDigits (q : ℚ) : Str :=
  natRepr ((q.num.natAbs * 1000000 / q.den) % 1000000)

/-- Python `str(float)` for a numeric cell: integers render with no point,
non-integers with a single decimal point. -/
def ratStr (q : ℚ) : Str :=
  if q.den = 1 then intRepr q.num
  else (if q < 0 then ['-'] else []) ++ natRepr (q.num.natAbs / q.den) ++ '.' :: fracDigits q

/-- Python `str(Timestamp)`: `YYYY-MM-DD 00:00:00` from the date code. -/
def dateStr (code : Nat) : Str :=
  natRepr (code / 10000) ++ '-' :: pad2 (code / 100 % 100) ++ '-' :: pad2 (code % 100)
    ++ " 00:00:00".data

/-- Python `str(cell)`. The `empty` case (`str(nan) = "nan"`) is only ever
reached behind a `notna` guard in the source. -/
def pyStr (c : Cell) : Str :=
  match c with
  | .empty => "nan".data
  | .s t => t
  | .n q => ratStr q
  | .date d => dateStr d

/-- Suffix of `l` after the first occurrence of `sep`; `[]` if none. -/
def dropAfterFirst (sep : Str) : Str → Str
  | [] => []
  | c :: rest =>
    if sep <+: (c :: rest) then List.drop sep.length (c :: rest)
    else dropAfterFirst sep rest

/-- Suffix of `l` after the last occurrence of `sep`; `[]` if none occurs. -/
def afterLastCore (sep : Str) : Str → Str
  | [] => []
  | c :: rest =>
    if sep <+: (c :: rest) ∧ ¬ (sep <:+: rest) then
      List.drop sep.length (c :: rest)
    else afterLastCore sep rest

/-- Python `s.split(sep)[-1]`: the text after the last occurrence of `sep`,
or all of `s` when `sep` does not occur. -/
def afterLast (sep l : Str) : Str :=
  if sep <:+: l then afterLastCore sep l else l

/-- The literal `"Não Identificado"` used as the unidentified-branch marker. -/
def naoIdentificado : Str := "Não Identificado".data

/-- `padronizar_nome_filial` from `app.py`: uppercase and strip the extracted
name, look it up in the fixed canonicalization table, and fall back to the
original (non-uppercased) name on a miss.  `Char.toUpper` only uppercases
ASCII letters while Python's `str.upper` also uppercases accented letters;
the table keys containing accents are already uppercase, so the difference
only affects lowercase accented input, which no claim under study touches. -/
def padronizar_nome_filial (nome : Str) : Str :=
  let up := pyStrip (nome.map Char.toUpper)
  if up = "GENERAL WATER".data then "General Water S/A".data
  else if up = "GW S/A".data then "General Water S/A".data
  else if up = "G W AGUAS".data then "GW Águas".data
  else if up = "GW ÁGUAS".data then "GW Águas".data
  else if up = "GW SANEAMENTO".data then "GW Saneamento".data
  else if up = "GW SANEA".data then "GW Saneamento".data
  else if up = "GW SISTEMAS".data then "GW Sistemas".data
  else if up = "GW SISTEM".data then "GW Sistemas".data
  else if up = "MATRIZ".data then "GW Sistemas Matriz".data
  else nome

/-- Python `s.replace('R$', '')`: delete every (non-overlapping, leftmost
first) occurrence of the two-character currency marker. -/
def removeRS : Str → Str
  | [] => []
  | [c] => [c]
  | c :: d :: rest =>
    if c = 'R' ∧ d = '$' then removeRS rest else c :: removeRS (d :: rest)

/-- Python `float(s)` on a plain decimal literal: optional sign, digits with
at most one decimal point, at least one digit overall.  Exponent, infinity,
NaN and underscore forms of the Python float grammar are treated as
unparseable; none can reach this function through `converter_valor`'s
transformations of the report's cell texts. -/
def pyFloat? (l : Str) : Option ℚ :=
  let sgn : ℚ := if l.head? = some '-' then -1 else 1
  let body := if l.head? = some '-' ∨ l.head? = some '+' then l.tail else l
  let ip := body.takeWhile (· ≠ '.')
  let rest := body.dropWhile (· ≠ '.')
  match rest with
  | [] => if pyIsdigit ip then some (sgn * (digitsVal ip : ℚ)) else none
  | _ :: fp =>
    if '.' ∈ fp then none
    else if (ip ≠ [] ∨ fp ≠ []) ∧ ip.all Char.isDigit ∧ fp.all Char.isDigit then
      some (sgn * ((digitsVal ip : ℚ) + (digitsVal fp : ℚ) / 10 ^ fp.length))
    else none

/-- String pipeline of `converter_valor`: drop `R$`, strip whitespace, if both
separators occur delete the thousands dots, turn the comma into a point, and
parse; any failure falls back to `0.0`. -/
def convStr (t : Str) : ℚ :=
  let v1 := pyStrip (removeRS t)
  let v2 := if ',' ∈ v1 ∧ '.' ∈ v1 then v1.filter (· ≠ '.') else v1
  let v3 := v2.map (fun c => if c = ',' then '.' else c)
  (pyFloat? v3).getD 0

/-- `converter_valor` from `app.py`: `NaN ↦ 0.0`, numbers pass through,
anything else is stringified and run through the string pipeline. -/
def converter_valor (valor : Cell) : ℚ :=
  match valor with
  | .empty => 0
  | .n q => q
  | .s t => convStr t
  | .date d => convStr (dateStr d)

/-- One flat output record of `processar_planilha` (one row of the final
DataFrame; the column order is fixed by the source and irrelevant here). -/
structure AssetRecord where
  arquivo : Str
  filial : Str
  conta : Str
  descConta : Str
  dataAquisicao : Nat
  codigoItem : Str
  codigoSubItem : Str
  descricaoItem : Str
  valorOriginal : ℚ
  valorAtualizado : ℚ
  deprecMes : ℚ
  deprecExercicio : ℚ
  deprecAcumulada : ℚ
  valorResidual : ℚ
deriving DecidableEq

/-- The real (non-"Não Identificado") branch values of a record list, in
order: `df_arquivo[df_arquivo['Filial'] != 'Não Identificado']['Filial']`. -/
def realFiliais (l : List AssetRecord) : List Str :=
  (l.filter (fun r => r.filial ≠ naoIdentificado)).map (fun r => r.filial)

/-- Lexicographic order on char lists, mirroring how pandas sorts the string
values returned by `Series.mode()` (ascending). -/
def strLt : Str → Str → Bool
  | [], [] => false
  | [], _ :: _ => true
  | _ :: _, [] => false
  | a :: as, b :: bs => if a < b then true else if b < a then false else strLt as bs

/-- One step of the mode computation: keep the candidate with the larger
multiplicity in `l`, breaking ties toward the lexicographically smaller. -/
def modeStep (l : List Str) (best : Option Str) (v : Str) : Option Str :=
  match best with
  | none => some v
  | some b =>
    if l.count v > l.count b then some v
    else if l.count v = l.count b ∧ strLt v b then some v
    else best

/-- `Series.mode()[0]`: among the values of maximal multiplicity, the
lexicographically smallest; `none` on an empty series. -/
def modeFilial (l : List Str) : Option Str :=
  l.dedup.foldl (modeStep l) none

/-- `corrigir_filiais_nao_identificadas` from `app.py`, on the record list of
one file: if the list is nonempty and some record carries a real branch,
replace every `"Não Identificado"` branch by the most frequent real one. -/
def corrigir_filiais_nao_identificadas (l : List AssetRecord) : List AssetRecord :=
  if l.isEmpty then l
  else
    match modeFilial (realFiliais l) with
    | none => l
    | some m => l.map (fun r => if r.filial = naoIdentificado then { r with filial := m } else r)

/-- Parser state of the record assembler: the three header context fields,
the pending item dict `last_data_row_info` (empty dict ↦ `none`), and the
accumulated `dados_processados`.  An invariant of the source (maintained
here by construction) is that when the pending dict is nonempty it is the
very object last appended to `dados_processados`. -/
structure PState where
  filial : Str
  conta : Str
  descConta : Str
  last : Option AssetRecord
  out : List AssetRecord
deriving DecidableEq

/-- `row.iloc[i]` on a NaN-padded sheet row. -/
def getCell (row : List Cell) (i : Nat) : Cell := row.getD i Cell.empty

/-- Branch-header test: `pd.notna(row.iloc[0]) and 'Filial :' in str(row.iloc[0])`. -/
def filialCond (row : List Cell) : Prop :=
  notna (getCell row 0) ∧ "Filial :".data <:+: pyStr (getCell row 0)

instance (row : List Cell) : Decidable (filialCond row) :=
  inferInstanceAs (Decidable (_ ∧ _))

/-- Account-header test: `str(row.iloc[0]).startswith('1.2.3.')`. -/
def contaCond (row : List Cell) : Prop :=
  notna (getCell row 0) ∧ "1.2.3.".data <+: pyStr (getCell row 0)

instance (row : List Cell) : Decidable (contaCond row) :=
  inferInstanceAs (Decidable (_ ∧ _))

/-- Item-line test: first cell a six-digit string, third cell a digit string. -/
def itemCond (row : List Cell) : Prop :=
  notna (getCell row 0) ∧ pyIsdigit (pyStrip (pyStr (getCell row 0))) = true ∧
    (pyStrip (pyStr (getCell row 0))).length = 6 ∧
    notna (getCell row 2) ∧ pyIsdigit (pyStrip (pyStr (getCell row 2))) = true

instance (row : List Cell) : Decidable (itemCond row) :=
  inferInstanceAs (Decidable (_ ∧ _ ∧ _ ∧ _ ∧ _))

/-- Value-line test: `str(row.iloc[0]).strip() == 'R$'`. -/
def valorCond (row : List Cell) : Prop :=
  notna (getCell row 0) ∧ pyStrip (pyStr (getCell row 0)) = "R$".data

instance (row : List Cell) : Decidable (valorCond row) :=
  inferInstanceAs (Decidable (_ ∧ _))

/-- `pd.to_datetime(x, errors='coerce')` on a column-H cell.  Cells that are
already datetimes (the shape `read_excel` yields for date-formatted cells)
parse to their code; everything else is modelled as coerced to `NaT` —
pandas' locale-dependent parsing of date-looking strings and of raw numbers
is outside the scope of every claim, each of which is conditioned on whether
the cell parsed, not on how. -/
def pd_to_datetime_coerce (c : Cell) : Option Nat :=
  match c with
  | .date code => some code
  | _ => none

/-- Date code of `pd.to_datetime('1990-01-01')`, the acquisition cutoff. -/
def cutoff19900101 : Nat := 19900101

/-- The record appended when an item line with a valid acquisition date is
seen: header context plus the item's own columns, all monetary fields `0.0`
(`'Valor Residual': 0.0  # Será calculado depois`). -/
def mkItemRecord (arquivo : Str) (st : PState) (row : List Cell) (code : Nat) : AssetRecord :=
  { arquivo := arquivo
    filial := st.filial
    conta := st.conta
    descConta := st.descConta
    dataAquisicao := code
    codigoItem := pyStrip (pyStr (getCell row 2))
    codigoSubItem := if notna (getCell row 9) then pyStrip (pyStr (getCell row 9)) else []
    descricaoItem := if notna (getCell row 3) then pyStrip (pyStr (getCell row 3)) else []
    valorOriginal := 0
    valorAtualizado := 0
    deprecMes := 0
    deprecExercicio := 0
    deprecAcumulada := 0
    valorResidual := 0 }

/-- Filling the monetary fields of a pending record from a value line:
`valores = [converter_valor(v) for v in row.iloc[1:8]]`, then the five
fields from `valores[1]..valores[5]` and the residual recomputed as
updated minus accumulated. -/
def fillValores (row : List Cell) (r : AssetRecord) : AssetRecord :=
  let valores := (List.range 7).map (fun i => converter_valor (getCell row (1 + i)))
  { r with
    valorOriginal := valores.getD 1 0
    valorAtualizado := valores.getD 2 0
    deprecMes := valores.getD 3 0
    deprecExercicio := valores.getD 4 0
    deprecAcumulada := valores.getD 5 0
    valorResidual := valores.getD 2 0 - valores.getD 5 0 }

/-- `dados_processados[-1] = ...` updates, guarded by
`if dados_processados:` in the source. -/
def updateLastRecord (out : List AssetRecord) (row : List Cell) : List AssetRecord :=
  match out.getLast? with
  | none => out
  | some r => out.dropLast ++ [fillValores row r]

/-- One iteration of the row loop of `processar_planilha` (the effective
inner pass, lines 229-281 of `app.py`), with the source's `elif` order:
branch header, account header, item line, value line, otherwise ignore. -/
def stepRow (arquivo : Str) (st : PState) (row : List Cell) : PState :=
  if filialCond row then
    { st with
      filial := padronizar_nome_filial
        (pyStrip (afterLast " - ".data (afterLast "Filial :".data (pyStr (getCell row 0))))) }
  else if contaCond row then
    { st with
      conta := pyStrip (pyStr (getCell row 0))
      descConta := if notna (getCell row 1) then pyStrip (pyStr (getCell row 1)) else [] }
  else if itemCond row then
    match pd_to_datetime_coerce (getCell row 7) with
    | some code =>
      if cutoff19900101 ≤ code then
        let rec0 := mkItemRecord arquivo st row code
        { st with last := some rec0, out := st.out ++ [rec0] }
      else st
    | none => st
  else if valorCond row then
    if st.last.isSome then { st with out := updateLastRecord st.out row, last := none }
    else st
  else st

/-- Start of a sheet: the three header context fields reset to
`"Não Identificado"`; the pending dict and the output carry across sheets
(they are initialized once, before the sheet loop). -/
def startSheet (st : PState) : PState :=
  { st with filial := naoIdentificado, conta := naoIdentificado, descConta := naoIdentificado }

/-- Process one sheet from a carried state. -/
def processSheet (arquivo : Str) (st : PState) (rows : List (List Cell)) : PState :=
  rows.foldl (stepRow arquivo) (startSheet st)

/-- Initial state: `dados_processados = []`, `last_data_row_info = {}`. -/
def initPState : PState :=
  { filial := naoIdentificado, conta := naoIdentificado, descConta := naoIdentificado
    last := none, out := [] }

/-- The records extracted from a workbook's sheets.  The source's outer scan
re-runs this inner pass from scratch at every qualifying item row it meets;
since the final `dados_processados` is exactly this pass's output whenever a
qualifying item row exists anywhere (and `[]` otherwise, which is also this
pass's output then), the inner pass is the whole extraction. -/
def processSheets (arquivo : Str) (sheets : List (List (List Cell))) : List AssetRecord :=
  (sheets.foldl (processSheet arquivo) initPState).out

/-- One uploaded workbook: its name and either its sheets or the message of
the exception raised while reading or scanning it. -/
structure UploadFile where
  name : Str
  content : Except Str (List (List (List Cell)))

/-- `f"Erro crítico ao processar {file.name}: {e}"`. -/
def criticalMsg (name e : Str) : Str :=
  "Erro crítico ao processar ".data ++ name ++ ": ".data ++ e

/-- `f"Nenhum dado relevante encontrado em {file.name}."`. -/
def noDataMsg (name : Str) : Str :=
  "Nenhum dado relevante encontrado em ".data ++ name ++ ".".data

/-- `processar_planilha` from `app.py`: catch a whole-file failure as a
per-file error; otherwise extract, and either return the backfilled records
or the no-data message. -/
def processar_planilha (f : UploadFile) : Option (List AssetRecord) × Option Str :=
  match f.content with
  | .error e => (none, some (criticalMsg f.name e))
  | .ok sheets =>
    let recs := processSheets f.name sheets
    if recs.isEmpty then (none, some (noDataMsg f.name))
    else (some (corrigir_filiais_nao_identificadas recs), none)

/-- One iteration of the `uploaded_files` loop: append the dataset when it is
present and nonempty, append the error message when present. -/
def runBatchStep (acc : List (List AssetRecord) × List Str) (f : UploadFile) :
    List (List AssetRecord) × List Str :=
  let res := processar_planilha f
  let d :=
    match res.1 with
    | some dados => if dados.isEmpty then acc.1 else acc.1 ++ [dados]
    | none => acc.1
  let e :=
    match res.2 with
    | some msg => acc.2 ++ [msg]
    | none => acc.2
  (d, e)

/-- The whole upload batch loop: per-file datasets and per-file errors. -/
def runBatch (files : List UploadFile) : List (List AssetRecord) × List Str :=
  files.foldl runBatchStep ([], [])

/-- Stated from the spec's words: the account context (code, description)
carried by the most recent AccountHeader row of a row prefix, where an
AccountHeader is a row the classifier sends to the account branch (first
cell prefixed with `1.2.3.`, and not a SectionHeader, which is tested
first). -/
def accountContext (acc : Str × Str) (row : List Cell) : Str × Str :=
  if contaCond row ∧ ¬ filialCond row then
    (pyStrip (pyStr (getCell row 0)),
     if notna (getCell row 1) then pyStrip (pyStr (getCell row 1)) else [])
  else acc

/-! Concrete sample inputs used by the witnesses and counterexamples. -/

/-- A sample file name. -/
def arq0 : Str := "ativos.xlsx".data

/-- An account-header row: `1.2.3.01  Equipamentos`. -/
def contaRow0 : List Cell :=
  [.s "1.2.3.01".data, .s "Equipamentos".data, .empty, .empty, .empty, .empty, .empty,
   .empty, .empty, .empty]

/-- An item row: six-digit branch code, item code `7`, acquired 2020-03-15. -/
def itemRow0 : List Cell :=
  [.s "100001".data, .empty, .s "7".data, .s "Bomba dosadora".data, .empty, .empty, .empty,
   .date 20200315, .empty, .s "01".data]

/-- An item row whose acquisition date cell is blank (coerces to `NaT`). -/
def itemRowNoDate : List Cell :=
  [.s "100001".data, .empty, .s "7".data, .s "Bomba dosadora".data, .empty, .empty, .empty,
   .empty, .empty, .s "01".data]

/-- An item row acquired on 1989-12-31, before the cutoff. -/
def itemRowOld : List Cell :=
  [.s "100001".data, .empty, .s "7".data, .s "Bomba dosadora".data, .empty, .empty, .empty,
   .date 19891231, .empty, .s "01".data]

/-- A value row: first cell `R$`, then the seven monetary columns. -/
def valorRow0 : List Cell :=
  [.s "R$".data, .n 10, .n 1000, .n 1200, .n 5, .n 60, .n 200, .empty, .empty, .empty]

/-- A one-sheet workbook holding a single item row and no value row. -/
def fileItemOnly : UploadFile := { name := arq0, content := .ok [[itemRow0]] }

/-- A corrupt workbook: reading it raises. -/
def badFile : UploadFile :=
  { name := "corrompido.xlsx".data, content := .error "arquivo inválido".data }

/-- A base record with every field neutral, for the backfill witnesses. -/
def sampleRec : AssetRecord :=
  { arquivo := arq0, filial := naoIdentificado, conta := naoIdentificado
    descConta := naoIdentificado, dataAquisicao := 20200315, codigoItem := ['7']
    codigoSubItem := [], descricaoItem := [], valorOriginal := 0, valorAtualizado := 0
    deprecMes := 0, deprecExercicio := 0, deprecAcumulada := 0, valorResidual := 0 }

/-- The base record carrying the real branch `A`. -/
def sampleRecA : AssetRecord := { sampleRec with filial := ['A'] }

/-! Helper lemmas about characters, stripping, and the row classifier. -/

lemma all_digits_of_pyIsdigit {l : Str} (h : pyIsdigit l = true) : ∀ c ∈ l, c.isDigit = true := by
  unfold pyIsdigit at h
  rw [Bool.and_eq_true, List.all_eq_true] at h
  exact fun c hc => h.2 c hc

lemma char_not_ws_of_isDigit {c : Char} (h : c.isDigit = true) : c.isWhitespace = false := by
  by_contra hw
  rw [Bool.not_eq_false] at hw
  simp only [Char.isWhitespace, Bool.or_eq_true, decide_eq_true_eq] at hw
  rcases hw with ((h1 | h1) | h1) | h1 <;> subst h1 <;> exact absurd h (by decide)

lemma mem_dropWhile_of_mem {p : Char → Bool} {c : Char} {l : Str}
    (hm : c ∈ l) (hc : p c = false) : c ∈ l.dropWhile p := by
  induction l with
  | nil => cases hm
  | cons a t ih =>
    rw [List.dropWhile_cons]
    by_cases ha : p a
    · rw [if_pos ha]
      rcases List.mem_cons.mp hm with he | ht
      · subst he; rw [hc] at ha; cases ha
      · exact ih ht
    · rw [if_neg ha]; exact hm

lemma mem_pyStrip {c : Char} {l : Str} (hc : c.isWhitespace = false) (hm : c ∈ l) :
    c ∈ pyStrip l := by
  unfold pyStrip
  have h1 : c ∈ l.dropWhile Char.isWhitespace := mem_dropWhile_of_mem hm hc
  have h2 := mem_dropWhile_of_mem (List.mem_reverse.mpr h1) hc
  exact List.mem_reverse.mpr h2

lemma not_filialCond_of_item {row : List Cell} (h : itemCond row) : ¬ filialCond row := by
  rintro ⟨_, hinf⟩
  obtain ⟨_, hdig, _, _, _⟩ := h
  have hF : 'F' ∈ pyStr (getCell row 0) := List.IsInfix.mem (by decide) hinf
  have hF2 : 'F' ∈ pyStrip (pyStr (getCell row 0)) := mem_pyStrip (by decide) hF
  exact absurd (all_digits_of_pyIsdigit hdig 'F' hF2) (by decide)

lemma not_contaCond_of_item {row : List Cell} (h : itemCond row) : ¬ contaCond row := by
  rintro ⟨_, hpre⟩
  obtain ⟨_, hdig, _, _, _⟩ := h
  have hD : '.' ∈ pyStr (getCell row 0) := hpre.sublist.subset (by decide)
  have hD2 : '.' ∈ pyStrip (pyStr (getCell row 0)) := mem_pyStrip (by decide) hD
  exact absurd (all_digits_of_pyIsdigit hdig '.' hD2) (by decide)

lemma stepRow_item (a : Str) (st : PState) (row : List Cell) (code : ℕ)
    (hitem : itemCond row) (hdate : pd_to_datetime_coerce (getCell row 7) = some code)
    (hcode : cutoff19900101 ≤ code) :
    stepRow a st row =
      { st with last := some (mkItemRecord a st row code),
                out := st.out ++ [mkItemRecord a st row code] } := by
  unfold stepRow
  rw [if_neg (not_filialCond_of_item hitem), if_neg (not_contaCond_of_item hitem),
    if_pos hitem, hdate]
  simp only []
  rw [if_pos hcode]

lemma stepRow_out_extend (a : Str) (st : PState) (row : List Cell) (h : ¬ valorCond row) :
    ∃ u, (stepRow a st row).out = st.out ++ u := by
  unfold stepRow
  by_cases h1 : filialCond row
  · exact ⟨[], by rw [if_pos h1]; simp⟩
  rw [if_neg h1]
  by_cases h2 : contaCond row
  · exact ⟨[], by rw [if_pos h2]; simp⟩
  rw [if_neg h2]
  by_cases h3 : itemCond row
  · rw [if_pos h3]
    cases hdt : pd_to_datetime_coerce (getCell row 7) with
    | none => exact ⟨[], by simp⟩
    | some code =>
      by_cases hc : cutoff19900101 ≤ code
      · exact ⟨[mkItemRecord a st row code], by simp only []; rw [if_pos hc]⟩
      · exact ⟨[], by simp only []; rw [if_neg hc]; simp⟩
  · rw [if_neg h3, if_neg h]
    exact ⟨[], by simp⟩

lemma foldl_out_extend (a : Str) (rows : List (List Cell))
    (h : ∀ row ∈ rows, ¬ valorCond row) :
    ∀ st : PState, ∃ u, (rows.foldl (stepRow a) st).out = st.out ++ u := by
  induction rows with
  | nil => exact fun st => ⟨[], by simp⟩
  | cons row rest ih =>
    intro st
    obtain ⟨u1, hu1⟩ := stepRow_out_extend a st row (h row (List.mem_cons_self row rest))
    obtain ⟨u2, hu2⟩ := ih (fun r hr => h r (List.mem_cons_of_mem row hr)) (stepRow a st row)
    exact ⟨u1 ++ u2, by rw [List.foldl_cons, hu2, hu1, List.append_assoc]⟩

/-! Claim C1.  The claim as stated is false on the code: the item row itself
already appends the record (with zero monetary fields), before any value
line is seen; the value line then fills that record in place. -/

/-- C1 counterexample: a worksheet holding one qualifying item line and no
value line at all makes `processar_planilha` emit exactly one record, where
the claim requires that no record be contributed. -/
theorem c1_counterexample_item_without_value_is_recorded :
    ((processar_planilha fileItemOnly).1.getD []).length = 1 := by decide

/-- C1 (amended): an ItemLine with a valid acquisition date contributes its
record immediately, and if no ValueLine follows it (before anything else or
the end of the worksheet) the record keeps all monetary fields zero — it is
exactly `mkItemRecord`, whose monetary fields are `0`. -/
theorem c1_amended_item_emits_zeroed_record (a : Str) (st : PState) (item : List Cell)
    (post : List (List Cell)) (code : ℕ)
    (hitem : itemCond item) (hdate : pd_to_datetime_coerce (getCell item 7) = some code)
    (hcode : cutoff19900101 ≤ code) (hpost : ∀ row ∈ post, ¬ valorCond row) :
    ((post.foldl (stepRow a) (stepRow a st item)).out)[st.out.length]? =
      some (mkItemRecord a st item code) := by
  rw [stepRow_item a st item code hitem hdate hcode]
  obtain ⟨u, hu⟩ := foldl_out_extend a post hpost _
  rw [hu]
  simp only []
  rw [List.append_assoc, List.getElem?_append_right (Nat.le_refl _)]
  simp

/-- Witness for C1 (amended) at the one-item worksheet. -/
theorem c1_amended_item_emits_zeroed_record_witness :
    itemCond itemRow0 ∧
    ((([] : List (List Cell)).foldl (stepRow arq0) (stepRow arq0 initPState itemRow0)).out)[
        initPState.out.length]? = some (mkItemRecord arq0 initPState itemRow0 20200315) :=
  ⟨by decide,
    c1_amended_item_emits_zeroed_record arq0 initPState itemRow0 [] 20200315
      (by decide) rfl (by decide) (by simp)⟩

/-! Claim C2.  Residual value is always updated value minus accumulated
depreciation, for every record `processar_planilha` returns. -/

lemma resid_fillValores (row : List Cell) (r : AssetRecord) :
    (fillValores row r).valorResidual =
      (fillValores row r).valorAtualizado - (fillValores row r).deprecAcumulada := rfl

lemma stepRow_out_cases (a : Str) (st : PState) (row : List Cell) :
    (stepRow a st row).out = st.out ∨
    (∃ code, (stepRow a st row).out = st.out ++ [mkItemRecord a st row code]) ∨
    (stepRow a st row).out = updateLastRecord st.out row := by
  unfold stepRow
  by_cases h1 : filialCond row
  · left; rw [if_pos h1]
  rw [if_neg h1]
  by_cases h2 : contaCond row
  · left; rw [if_pos h2]
  rw [if_neg h2]
  by_cases h3 : itemCond row
  · rw [if_pos h3]
    cases hdt : pd_to_datetime_coerce (getCell row 7) with
    | none => left; rfl
    | some code =>
      by_cases hc : cutoff19900101 ≤ code
      · right; left; exact ⟨code, by simp only []; rw [if_pos hc]⟩
      · left; simp only []; rw [if_neg hc]
  rw [if_neg h3]
  by_cases h4 : valorCond row
  · rw [if_pos h4]
    by_cases h5 : st.last.isSome
    · right; right; rw [if_pos h5]
    · left; rw [if_neg h5]
  · left; rw [if_neg h4]

lemma resid_updateLast (out : List AssetRecord) (row : List Cell)
    (hinv : ∀ r ∈ out, r.valorResidual = r.valorAtualizado - r.deprecAcumulada) :
    ∀ r ∈ updateLastRecord out row,
      r.valorResidual = r.valorAtualizado - r.deprecAcumulada := by
  unfold updateLastRecord
  cases hl : out.getLast? with
  | none => exact hinv
  | some r0 =>
    intro r hr
    rcases List.mem_append.mp hr with hd | hs
    · exact hinv r (List.dropLast_subset out hd)
    · rcases List.mem_singleton.mp hs with rfl
      exact resid_fillValores row r0

lemma resid_step (a : Str) (st : PState) (row : List Cell)
    (hinv : ∀ r ∈ st.out, r.valorResidual = r.valorAtualizado - r.deprecAcumulada) :
    ∀ r ∈ (stepRow a st row).out,
      r.valorResidual = r.valorAtualizado - r.deprecAcumulada := by
  rcases stepRow_out_cases a st row with h | ⟨code, h⟩ | h <;> rw [h]
  · exact hinv
  · intro r hr
    rcases List.mem_append.mp hr with hd | hs
    · exact hinv r hd
    · rcases List.mem_singleton.mp hs with rfl
      simp [mkItemRecord]
  · exact resid_updateLast st.out row hinv

lemma resid_foldRows (a : Str) (rows : List (List Cell)) :
    ∀ st : PState,
      (∀ r ∈ st.out, r.valorResidual = r.valorAtualizado - r.deprecAcumulada) →
      ∀ r ∈ (rows.foldl (stepRow a) st).out,
        r.valorResidual = r.valorAtualizado - r.deprecAcumulada := by
  induction rows with
  | nil => exact fun st hinv => hinv
  | cons row rest ih =>
    intro st hinv
    exact ih (stepRow a st row) (resid_step a st row hinv)

lemma resid_processSheets (a : Str) (sheets : List (List (List Cell))) :
    ∀ r ∈ processSheets a sheets,
      r.valorResidual = r.valorAtualizado - r.deprecAcumulada := by
  unfold processSheets
  suffices h : ∀ st : PState,
      (∀ r ∈ st.out, r.valorResidual = r.valorAtualizado - r.deprecAcumulada) →
      ∀ r ∈ (sheets.foldl (processSheet a) st).out,
        r.valorResidual = r.valorAtualizado - r.deprecAcumulada by
    exact h initPState (by intro r hr; cases hr)
  induction sheets with
  | nil => exact fun st hinv => hinv
  | cons rows rest ih =>
    intro st hinv
    exact ih (processSheet a st rows) (resid_foldRows a rows (startSheet st) hinv)

lemma resid_corrigir (l : List AssetRecord)
    (hinv : ∀ r ∈ l, r.valorResidual = r.valorAtualizado - r.deprecAcumulada) :
    ∀ r ∈ corrigir_filiais_nao_identificadas l,
      r.valorResidual = r.valorAtualizado - r.deprecAcumulada := by
  unfold corrigir_filiais_nao_identificadas
  by_cases he : l.isEmpty
  · rw [if_pos he]; exact hinv
  rw [if_neg he]
  cases hm : modeFilial (realFiliais l) with
  | none => exact hinv
  | some m =>
    intro r hr
    rcases List.mem_map.mp hr with ⟨r0, hr0, hf⟩
    subst hf
    by_cases hfi : r0.filial = naoIdentificado
    · rw [if_pos hfi]; exact hinv r0 hr0
    · rw [if_neg hfi]; exact hinv r0 hr0

/-- C2: every record in a dataset returned by `processar_planilha` has
`Valor Residual` equal to `Valor atualizado` minus `Deprec. Acumulada`,
exactly; the field is derived (`mkItemRecord` and `fillValores` both compute
it from the other two), never read from the input. -/
theorem c2_residual_eq_updated_minus_accumulated (f : UploadFile)
    (recs : List AssetRecord) (err : Option Str)
    (h : processar_planilha f = (some recs, err)) :
    ∀ r ∈ recs, r.valorResidual = r.valorAtualizado - r.deprecAcumulada := by
  obtain ⟨name, content⟩ := f
  cases content with
  | error e => cases h
  | ok sheets =>
    unfold processar_planilha at h
    simp only [] at h
    by_cases hre : (processSheets name sheets).isEmpty
    · rw [if_pos hre] at h; cases h
    · rw [if_neg hre] at h
      have hrecs : corrigir_filiais_nao_identificadas (processSheets name sheets) = recs :=
        Option.some.inj (congrArg Prod.fst h)
      rw [← hrecs]
      exact resid_corrigir _ (resid_processSheets name sheets)

/-- Witness for C2 at the one-item workbook. -/
theorem c2_residual_eq_updated_minus_accumulated_witness :
    processar_planilha fileItemOnly =
      (some [mkItemRecord arq0 initPState itemRow0 20200315], none) ∧
    ∀ r ∈ [mkItemRecord arq0 initPState itemRow0 20200315],
      r.valorResidual = r.valorAtualizado - r.deprecAcumulada :=
  ⟨by decide,
    c2_residual_eq_updated_minus_accumulated fileItemOnly _ none (by decide)⟩

/-! Claim C5.  A value line with no pending item is a no-op. -/

/-- C5: a ValueLine (first cell exactly `R$`) arriving while no unfinished
ItemLine is pending — which includes a second consecutive ValueLine, since
filling resets the pending dict — leaves the whole state untouched: no
record emitted, no previously emitted record changed, no error. -/
theorem c5_valor_row_without_pending_is_noop (arquivo : Str) (st : PState) (row : List Cell)
    (hcell : getCell row 0 = Cell.s ['R', '$']) (hlast : st.last = none) :
    stepRow arquivo st row = st := by
  have h1 : ¬ filialCond row := by unfold filialCond; rw [hcell]; decide
  have h2 : ¬ contaCond row := by unfold contaCond; rw [hcell]; decide
  have h3 : ¬ itemCond row := by
    rintro ⟨_, hdig, _⟩
    rw [hcell] at hdig
    exact absurd hdig (by decide)
  have h4 : valorCond row := by unfold valorCond; rw [hcell]; decide
  unfold stepRow
  rw [if_neg h1, if_neg h2, if_neg h3, if_pos h4, hlast]
  rfl

/-- Witness for C5 at a concrete value row and the initial state. -/
theorem c5_valor_row_without_pending_is_noop_witness :
    getCell valorRow0 0 = Cell.s ['R', '$'] ∧ initPState.last = none ∧
    stepRow arq0 initPState valorRow0 = initPState :=
  ⟨rfl, rfl, c5_valor_row_without_pending_is_noop arq0 initPState valorRow0 rfl rfl⟩

/-! Claim C7.  An item-shaped row with an unparseable acquisition date is
dropped without error and without touching the state. -/

/-- C7: an ItemLine-shaped row whose column-H cell does not parse to a valid
date creates no record and raises no error — the step leaves the state
exactly as it was. -/
theorem c7_item_row_invalid_date_dropped (arquivo : Str) (st : PState) (row : List Cell)
    (hitem : itemCond row) (hdate : pd_to_datetime_coerce (getCell row 7) = none) :
    stepRow arquivo st row = st := by
  unfold stepRow
  rw [if_neg (not_filialCond_of_item hitem), if_neg (not_contaCond_of_item hitem),
    if_pos hitem, hdate]

/-- Witness for C7 at an item row with a blank date cell. -/
theorem c7_item_row_invalid_date_dropped_witness :
    itemCond itemRowNoDate ∧ pd_to_datetime_coerce (getCell itemRowNoDate 7) = none ∧
    stepRow arq0 initPState itemRowNoDate = initPState :=
  ⟨by decide, rfl, c7_item_row_invalid_date_dropped arq0 initPState itemRowNoDate (by decide) rfl⟩

/-! Claim C9.  The undocumented 1990-01-01 lower cutoff. -/

/-- C9: an ItemLine-shaped row whose acquisition date parses validly but
falls strictly before 1990-01-01 creates no record: the assembler's
`data_aquisicao >= pd.to_datetime('1990-01-01')` filter drops it. -/
theorem c9_item_row_before_1990_dropped (arquivo : Str) (st : PState) (row : List Cell)
    (code : ℕ) (hitem : itemCond row)
    (hdate : pd_to_datetime_coerce (getCell row 7) = some code) (hlt : code < 19900101) :
    stepRow arquivo st row = st := by
  unfold stepRow
  rw [if_neg (not_filialCond_of_item hitem), if_neg (not_contaCond_of_item hitem),
    if_pos hitem, hdate]
  simp only []
  rw [if_neg (by unfold cutoff19900101; omega)]

/-- Witness for C9 at an item row acquired on 1989-12-31. -/
theorem c9_item_row_before_1990_dropped_witness :
    itemCond itemRowOld ∧ pd_to_datetime_coerce (getCell itemRowOld 7) = some 19891231 ∧
    stepRow arq0 initPState itemRowOld = initPState :=
  ⟨by decide, rfl,
    c9_item_row_before_1990_dropped arq0 initPState itemRowOld 19891231 (by decide) rfl
      (by decide)⟩

/-! Claim C10.  The backfill pass is a pure frame over the branch field. -/

/-- C10: the backfill changes nothing but the `Filial` field: the length and
order of the record list are kept, every record keeps all its other fields
(setting the branch back recovers it), and a record whose branch is already
real is returned identically. -/
theorem c10_backfill_frame (l : List AssetRecord) (k : ℕ) (r : AssetRecord)
    (h : l[k]? = some r) :
    (corrigir_filiais_nao_identificadas l).length = l.length ∧
    ∃ r', (corrigir_filiais_nao_identificadas l)[k]? = some r' ∧
      { r' with filial := r.filial } = r ∧ (r.filial ≠ naoIdentificado → r' = r) := by
  unfold corrigir_filiais_nao_identificadas
  by_cases he : l.isEmpty
  · rw [if_pos he]
    exact ⟨rfl, r, h, rfl, fun _ => rfl⟩
  rw [if_neg he]
  cases hm : modeFilial (realFiliais l) with
  | none => exact ⟨rfl, r, h, rfl, fun _ => rfl⟩
  | some m =>
    refine ⟨List.length_map l _, ?_⟩
    refine ⟨if r.filial = naoIdentificado then { r with filial := m } else r, ?_, ?_, ?_⟩
    · rw [List.getElem?_map, h, Option.map_some']
    · by_cases hf : r.filial = naoIdentificado
      · rw [if_pos hf]
      · rw [if_neg hf]
    · intro hf; rw [if_neg hf]

/-- Witness for C10 at a two-record list whose second branch is real. -/
theorem c10_backfill_frame_witness :
    ([sampleRec, sampleRecA][1]? = some sampleRecA) ∧
    ((corrigir_filiais_nao_identificadas [sampleRec, sampleRecA]).length =
        [sampleRec, sampleRecA].length ∧
      ∃ r', (corrigir_filiais_nao_identificadas [sampleRec, sampleRecA])[1]? = some r' ∧
        { r' with filial := sampleRecA.filial } = sampleRecA ∧
        (sampleRecA.filial ≠ naoIdentificado → r' = sampleRecA)) :=
  ⟨by decide, c10_backfill_frame [sampleRec, sampleRecA] 1 sampleRecA (by decide)⟩

/-! Claim C4.  Backfill replaces unidentified branches by the most frequent
real branch. -/

lemma strLt_irrefl : ∀ s : Str, strLt s s = false
  | [] => rfl
  | a :: as => by
    unfold strLt
    rw [if_neg (lt_irrefl a), if_neg (lt_irrefl a)]
    exact strLt_irrefl as

lemma modeFold_eq_some (l : List Str) (m : Str)
    (huniq : ∀ v ∈ l, v ≠ m → l.count v < l.count m) :
    ∀ (cands : List Str) (acc : Option Str), (∀ v ∈ cands, v ∈ l) →
      (m ∈ cands ∨ acc = some m) →
      (acc = none ∨ ∃ b, acc = some b ∧ (b = m ∨ (b ∈ l ∧ l.count b < l.count m))) →
      cands.foldl (modeStep l) acc = some m := by
  intro cands
  induction cands with
  | nil =>
    intro acc _ hmem hinv
    rcases hmem with h | h
    · cases h
    · exact h
  | cons v rest ih =>
    intro acc hsub hmem hinv
    rw [List.foldl_cons]
    have hsub' : ∀ w ∈ rest, w ∈ l := fun w hw => hsub w (List.mem_cons_of_mem v hw)
    have hvl : v ∈ l := hsub v (List.mem_cons_self v rest)
    rcases hinv with rfl | ⟨b, rfl, hbm⟩
    · by_cases hv : v = m
      · subst hv
        exact ih (some v) hsub' (Or.inr rfl) (Or.inr ⟨v, rfl, Or.inl rfl⟩)
      · have hcnt := huniq v hvl hv
        have hm' : m ∈ rest := by
          rcases hmem with hmc | hacc
          · rcases List.mem_cons.mp hmc with he | ht
            · exact absurd he.symm hv
            · exact ht
          · cases hacc
        exact ih (some v) hsub' (Or.inl hm') (Or.inr ⟨v, rfl, Or.inr ⟨hvl, hcnt⟩⟩)
    · rcases hbm with heq | ⟨hbl, hbcnt⟩
      · subst heq
        have hstep : modeStep l (some b) v = some b := by
          simp only [modeStep]
          by_cases hv : v = b
          · subst hv
            rw [if_neg (lt_irrefl _), if_neg]
            rintro ⟨-, hs⟩
            rw [strLt_irrefl v] at hs
            cases hs
          · have hcnt := huniq v hvl hv
            rw [if_neg (by omega), if_neg (by rintro ⟨he, -⟩; omega)]
        rw [hstep]
        exact ih (some b) hsub' (Or.inr rfl) (Or.inr ⟨b, rfl, Or.inl rfl⟩)
      · by_cases hv : v = m
        · subst hv
          have hstep : modeStep l (some b) v = some v := by
            simp only [modeStep]
            rw [if_pos (by omega)]
          rw [hstep]
          exact ih (some v) hsub' (Or.inr rfl) (Or.inr ⟨v, rfl, Or.inl rfl⟩)
        · have hcnt := huniq v hvl hv
          have hm' : m ∈ rest := by
            rcases hmem with hmc | hacc
            · rcases List.mem_cons.mp hmc with he | ht
              · exact absurd he.symm hv
              · exact ht
            · rcases Option.some.inj hacc with rfl
              exact absurd hbcnt (lt_irrefl _)
          have hcase : modeStep l (some b) v = some v ∨ modeStep l (some b) v = some b := by
            simp only [modeStep]
            by_cases h1 : l.count v > l.count b
            · rw [if_pos h1]; exact Or.inl rfl
            · rw [if_neg h1]
              by_cases h2 : l.count v = l.count b ∧ strLt v b
              · rw [if_pos h2]; exact Or.inl rfl
              · rw [if_neg h2]; exact Or.inr rfl
          rcases hcase with hst | hst <;> rw [hst]
          · exact ih (some v) hsub' (Or.inl hm') (Or.inr ⟨v, rfl, Or.inr ⟨hvl, hcnt⟩⟩)
          · exact ih (some b) hsub' (Or.inl hm') (Or.inr ⟨b, rfl, Or.inr ⟨hbl, hbcnt⟩⟩)

lemma modeFilial_eq_of_unique (l : List Str) (m : Str) (hm : m ∈ l)
    (huniq : ∀ v ∈ l, v ≠ m → l.count v < l.count m) : modeFilial l = some m := by
  unfold modeFilial
  exact modeFold_eq_some l m huniq l.dedup none
    (fun v hv => List.dedup_subset l hv)
    (Or.inl (List.mem_dedup.mpr hm)) (Or.inl rfl)

/-- C4: when the per-file record list carries at least one real branch and
`m` is its strictly most frequent real branch value, the backfill pass
replaces exactly the `"Não Identificado"` branches by `m`; and when no
record carries a real branch (in particular on an empty list), the pass
replaces nothing. -/
theorem c4_backfill_majority (l : List AssetRecord) (m : Str) (hm : m ∈ realFiliais l)
    (huniq : ∀ v ∈ realFiliais l, v ≠ m →
      (realFiliais l).count v < (realFiliais l).count m) :
    corrigir_filiais_nao_identificadas l =
      l.map (fun r => if r.filial = naoIdentificado then { r with filial := m } else r) ∧
    ∀ l2 : List AssetRecord, realFiliais l2 = [] →
      corrigir_filiais_nao_identificadas l2 = l2 := by
  constructor
  · have hne : ¬ l.isEmpty := by
      intro he
      rw [List.isEmpty_iff.mp he] at hm
      cases hm
    unfold corrigir_filiais_nao_identificadas
    rw [if_neg hne, modeFilial_eq_of_unique (realFiliais l) m hm huniq]
  · intro l2 h2
    unfold corrigir_filiais_nao_identificadas
    by_cases he : l2.isEmpty
    · rw [if_pos he]
    · rw [if_neg he, h2]
      rfl

/-- Witness for C4 at the spec's example `[unidentified, A, A, unidentified]`,
which backfills to `[A, A, A, A]`. -/
theorem c4_backfill_majority_witness :
    (['A'] ∈ realFiliais [sampleRec, sampleRecA, sampleRecA, sampleRec]) ∧
    corrigir_filiais_nao_identificadas [sampleRec, sampleRecA, sampleRecA, sampleRec] =
      [sampleRec, sampleRecA, sampleRecA, sampleRec].map
        (fun r => if r.filial = naoIdentificado then { r with filial := ['A'] } else r) ∧
    corrigir_filiais_nao_identificadas [sampleRec, sampleRecA, sampleRecA, sampleRec] =
      [sampleRecA, sampleRecA, sampleRecA, sampleRecA] :=
  ⟨by decide,
    (c4_backfill_majority [sampleRec, sampleRecA, sampleRecA, sampleRec] ['A']
        (by decide) (by decide)).1,
    by decide⟩

/-! Claim C6.  A corrupt file yields one per-file error and no dataset, and
the rest of the batch is unaffected. -/

lemma runBatchStep_split (acc : List (List AssetRecord) × List Str) (f : UploadFile) :
    runBatchStep acc f =
      (acc.1 ++ (runBatchStep ([], []) f).1, acc.2 ++ (runBatchStep ([], []) f).2) := by
  unfold runBatchStep
  simp only []
  cases h1 : (processar_planilha f).1 with
  | none =>
    cases h2 : (processar_planilha f).2 with
    | none => simp [h1, h2]
    | some msg => simp [h1, h2]
  | some dados =>
    cases h2 : (processar_planilha f).2 with
    | none =>
      by_cases hd : dados.isEmpty
      · simp [h1, h2, hd]
      · simp [h1, h2, hd]
    | some msg =>
      by_cases hd : dados.isEmpty
      · simp [h1, h2, hd]
      · simp [h1, h2, hd]

lemma runBatch_foldl_split (files : List UploadFile) :
    ∀ acc : List (List AssetRecord) × List Str,
      files.foldl runBatchStep acc = (acc.1 ++ (runBatch files).1, acc.2 ++ (runBatch files).2) := by
  induction files with
  | nil => intro acc; simp [runBatch]
  | cons f rest ih =>
    intro acc
    rw [List.foldl_cons, ih (runBatchStep acc f), runBatchStep_split acc f]
    have hr : runBatch (f :: rest) = (rest.foldl runBatchStep (runBatchStep ([], []) f)) := by
      unfold runBatch
      rw [List.foldl_cons]
    rw [hr, ih (runBatchStep ([], []) f)]
    simp [List.append_assoc]

/-- C6: a file whose parse raises yields a `None` dataset plus the per-file
error message, and its presence in a batch leaves every other file's dataset
untouched: the datasets of `pre ++ [f] ++ post` are those of `pre ++ post`,
and the errors are those of `pre`, then `f`'s message, then `post`'s. -/
theorem c6_corrupt_file_isolated (pre post : List UploadFile) (f : UploadFile) (e : Str)
    (h : f.content = .error e) :
    processar_planilha f = (none, some (criticalMsg f.name e)) ∧
    (runBatch (pre ++ f :: post)).1 = (runBatch (pre ++ post)).1 ∧
    (runBatch (pre ++ f :: post)).2 =
      (runBatch pre).2 ++ criticalMsg f.name e :: (runBatch post).2 := by
  have h1 : processar_planilha f = (none, some (criticalMsg f.name e)) := by
    obtain ⟨nm, ct⟩ := f
    subst h
    rfl
  have hstep : ∀ acc : List (List AssetRecord) × List Str,
      runBatchStep acc f = (acc.1, acc.2 ++ [criticalMsg f.name e]) := by
    intro acc
    unfold runBatchStep
    simp only [h1]
  have hL : runBatch (pre ++ f :: post) =
      ((runBatch pre).1 ++ (runBatch post).1,
        ((runBatch pre).2 ++ [criticalMsg f.name e]) ++ (runBatch post).2) := by
    unfold runBatch
    rw [List.foldl_append, List.foldl_cons, hstep, runBatch_foldl_split post]
    rfl
  have hR : runBatch (pre ++ post) =
      ((runBatch pre).1 ++ (runBatch post).1, (runBatch pre).2 ++ (runBatch post).2) := by
    unfold runBatch
    rw [List.foldl_append]
    exact runBatch_foldl_split post (List.foldl runBatchStep ([], []) pre)
  refine ⟨h1, ?_, ?_⟩
  · rw [hL, hR]
  · rw [hL]
    simp

/-- Witness for C6: a batch of one well-formed file and one corrupt file
produces exactly one (non-empty) dataset and exactly one error. -/
theorem c6_corrupt_file_isolated_witness :
    badFile.content = .error "arquivo inválido".data ∧
    (runBatch [fileItemOnly, badFile]).1 = (runBatch [fileItemOnly]).1 ∧
    (runBatch [fileItemOnly, badFile]).2 =
      (runBatch [fileItemOnly]).2 ++
        criticalMsg badFile.name "arquivo inválido".data ::
          (runBatch ([] : List UploadFile)).2 ∧
    (runBatch [fileItemOnly, badFile]).1.length = 1 ∧
    (runBatch [fileItemOnly, badFile]).1.all (fun d => !d.isEmpty) = true ∧
    (runBatch [fileItemOnly, badFile]).2.length = 1 :=
  ⟨rfl,
    (c6_corrupt_file_isolated [fileItemOnly] [] badFile "arquivo inválido".data rfl).2.1,
    (c6_corrupt_file_isolated [fileItemOnly] [] badFile "arquivo inválido".data rfl).2.2,
    by decide, by decide, by decide⟩

/-! Claim C8.  Account code and description persist from the most recent
account header until superseded, and every emitted record carries them. -/

lemma stepRow_account (a : Str) (st : PState) (row : List Cell) :
    ((stepRow a st row).conta, (stepRow a st row).descConta) =
      accountContext (st.conta, st.descConta) row := by
  unfold stepRow accountContext
  by_cases h1 : filialCond row
  · rw [if_pos h1,
      if_neg (show ¬ (contaCond row ∧ ¬ filialCond row) from fun hp => hp.2 h1)]
  rw [if_neg h1]
  by_cases h2 : contaCond row
  · rw [if_pos h2,
      if_pos (show contaCond row ∧ ¬ filialCond row from ⟨h2, h1⟩)]
  rw [if_neg h2,
    if_neg (show ¬ (contaCond row ∧ ¬ filialCond row) from fun hp => h2 hp.1)]
  by_cases h3 : itemCond row
  · rw [if_pos h3]
    cases hdt : pd_to_datetime_coerce (getCell row 7) with
    | none => rfl
    | some code =>
      simp only []
      by_cases hc : cutoff19900101 ≤ code
      · rw [if_pos hc]
      · rw [if_neg hc]
  · rw [if_neg h3]
    by_cases h4 : valorCond row
    · rw [if_pos h4]
      by_cases h5 : st.last.isSome
      · rw [if_pos h5]
      · rw [if_neg h5]
    · rw [if_neg h4]

lemma foldl_account (a : Str) (rows : List (List Cell)) :
    ∀ st : PState,
      ((rows.foldl (stepRow a) st).conta, (rows.foldl (stepRow a) st).descConta) =
        rows.foldl accountContext (st.conta, st.descConta) := by
  induction rows with
  | nil => exact fun st => rfl
  | cons row rest ih =>
    intro st
    rw [List.foldl_cons, List.foldl_cons, ih (stepRow a st row), stepRow_account a st row]

lemma stepRow_preserves_record (a : Str) (st : PState) (row : List Cell) (k : ℕ)
    (r : AssetRecord) (h : st.out[k]? = some r) :
    ∃ r', (stepRow a st row).out[k]? = some r' ∧
      r'.conta = r.conta ∧ r'.descConta = r.descConta := by
  have hk : k < st.out.length := (List.getElem?_eq_some.mp h).1
  rcases stepRow_out_cases a st row with hc | ⟨code, hc⟩ | hc <;> rw [hc]
  · exact ⟨r, h, rfl, rfl⟩
  · exact ⟨r, by rw [List.getElem?_append_left hk]; exact h, rfl, rfl⟩
  · unfold updateLastRecord
    cases hl : st.out.getLast? with
    | none => exact ⟨r, h, rfl, rfl⟩
    | some r0 =>
      by_cases hk1 : k < st.out.length - 1
      · refine ⟨r, ?_, rfl, rfl⟩
        rw [List.getElem?_append_left (by rw [List.length_dropLast]; omega),
          List.getElem?_dropLast, if_pos hk1]
        exact h
      · have hk2 : k = st.out.length - 1 := by omega
        have hr0 : r = r0 := by
          rw [List.getLast?_eq_getElem?, ← hk2, h] at hl
          exact Option.some.inj hl
        subst hr0
        refine ⟨fillValores row r, ?_, rfl, rfl⟩
        rw [List.getElem?_append_right (by rw [List.length_dropLast]; omega),
          List.length_dropLast, hk2]
        simp

lemma foldl_preserves_record (a : Str) (rows : List (List Cell)) :
    ∀ (st : PState) (k : ℕ) (r : AssetRecord), st.out[k]? = some r →
      ∃ r', ((rows.foldl (stepRow a) st).out)[k]? = some r' ∧
        r'.conta = r.conta ∧ r'.descConta = r.descConta := by
  induction rows with
  | nil => exact fun st k r h => ⟨r, h, rfl, rfl⟩
  | cons row rest ih =>
    intro st k r h
    obtain ⟨r1, h1, hc1, hd1⟩ := stepRow_preserves_record a st row k r h
    obtain ⟨r2, h2, hc2, hd2⟩ := ih (stepRow a st row) k r1 h1
    exact ⟨r2, h2, hc2.trans hc1, hd2.trans hd1⟩

/-- C8: within a worksheet run, (i) the carried account code and description
are exactly those of the most recent AccountHeader row (`accountContext`
folded over the prefix), persisting unchanged across item and value rows;
(ii) an item row emits its record with the carried code and description; and
(iii) no later row ever changes the account fields of an emitted record. -/
theorem c8_account_context_persists :
    (∀ (a : Str) (st : PState) (rows : List (List Cell)),
      ((rows.foldl (stepRow a) st).conta, (rows.foldl (stepRow a) st).descConta) =
        rows.foldl accountContext (st.conta, st.descConta)) ∧
    (∀ (a : Str) (st : PState) (item : List Cell) (code : ℕ),
      itemCond item → pd_to_datetime_coerce (getCell item 7) = some code →
      cutoff19900101 ≤ code →
      (stepRow a st item).out = st.out ++ [mkItemRecord a st item code] ∧
      (mkItemRecord a st item code).conta = st.conta ∧
      (mkItemRecord a st item code).descConta = st.descConta) ∧
    (∀ (a : Str) (st : PState) (rows : List (List Cell)) (k : ℕ) (r : AssetRecord),
      st.out[k]? = some r →
      ∃ r', ((rows.foldl (stepRow a) st).out)[k]? = some r' ∧
        r'.conta = r.conta ∧ r'.descConta = r.descConta) := by
  refine ⟨fun a st rows => foldl_account a rows st, ?_,
    fun a st rows => foldl_preserves_record a rows st⟩
  intro a st item code hitem hdate hcode
  exact ⟨by rw [stepRow_item a st item code hitem hdate hcode], rfl, rfl⟩

/-- Witness for C8 at an account header followed by an item row. -/
theorem c8_account_context_persists_witness :
    ((([contaRow0, itemRow0].foldl (stepRow arq0) initPState).conta,
        (([contaRow0, itemRow0]).foldl (stepRow arq0) initPState).descConta) =
      [contaRow0, itemRow0].foldl accountContext (initPState.conta, initPState.descConta)) ∧
    ((stepRow arq0 initPState itemRow0).out =
        initPState.out ++ [mkItemRecord arq0 initPState itemRow0 20200315] ∧
      (mkItemRecord arq0 initPState itemRow0 20200315).conta = initPState.conta ∧
      (mkItemRecord arq0 initPState itemRow0 20200315).descConta = initPState.descConta) :=
  ⟨c8_account_context_persists.1 arq0 initPState [contaRow0, itemRow0],
    c8_account_context_persists.2.1 arq0 initPState itemRow0 20200315 (by decide) rfl
      (by decide)⟩

/-! Claim C3.  Helper lemmas for the value-normalizer proof. -/

lemma digit_ne (c d : Char) (h1 : c.isDigit = true) (h2 : d.isDigit = false) : c ≠ d := by
  intro he
  rw [he, h2] at h1
  cases h1

lemma removeRS_of_no_R : ∀ l : Str, (∀ c ∈ l, c ≠ 'R') → removeRS l = l
  | [], _ => rfl
  | [c], _ => rfl
  | c :: d :: rest, h => by
    unfold removeRS
    rw [if_neg (by rintro ⟨hc, -⟩; exact h c (List.mem_cons_self c _) hc)]
    rw [removeRS_of_no_R (d :: rest) (fun x hx => h x (List.mem_cons_of_mem c hx))]

lemma dropWhile_of_all_not {p : Char → Bool} : ∀ l : Str, (∀ c ∈ l, p c = false) →
    l.dropWhile p = l
  | [], _ => rfl
  | c :: rest, h => by
    rw [List.dropWhile_cons, if_neg (by rw [h c (List.mem_cons_self c rest)]; simp)]

lemma pyStrip_of_no_ws {l : Str} (h : ∀ c ∈ l, c.isWhitespace = false) : pyStrip l = l := by
  unfold pyStrip
  rw [dropWhile_of_all_not l h,
    dropWhile_of_all_not l.reverse (fun c hc => h c (List.mem_reverse.mp hc)),
    List.reverse_reverse]

lemma pyStrip_cons_ws {c : Char} {l : Str} (h : c.isWhitespace = true) :
    pyStrip (c :: l) = pyStrip l := by
  unfold pyStrip
  rw [List.dropWhile_cons, if_pos h]

lemma takeWhile_append_all {p : Char → Bool} : ∀ (l1 l2 : Str), (∀ c ∈ l1, p c = true) →
    (l1 ++ l2).takeWhile p = l1 ++ l2.takeWhile p
  | [], l2, _ => rfl
  | c :: rest, l2, h => by
    rw [List.cons_append, List.takeWhile_cons, if_pos (h c (List.mem_cons_self c rest)),
      takeWhile_append_all rest l2 (fun x hx => h x (List.mem_cons_of_mem c hx)),
      List.cons_append]

lemma dropWhile_append_all {p : Char → Bool} : ∀ (l1 l2 : Str), (∀ c ∈ l1, p c = true) →
    (l1 ++ l2).dropWhile p = l2.dropWhile p
  | [], l2, _ => rfl
  | c :: rest, l2, h => by
    rw [List.cons_append, List.dropWhile_cons, if_pos (h c (List.mem_cons_self c rest)),
      dropWhile_append_all rest l2 (fun x hx => h x (List.mem_cons_of_mem c hx))]

lemma map_eq_self_of {f : Char → Char} : ∀ l : Str, (∀ c ∈ l, f c = c) → l.map f = l
  | [], _ => rfl
  | c :: rest, h => by
    rw [List.map_cons, h c (List.mem_cons_self c rest),
      map_eq_self_of rest (fun x hx => h x (List.mem_cons_of_mem c hx))]

lemma digitsVal_foldl_acc : ∀ (l : Str) (acc : ℕ),
    l.foldl (fun a c => 10 * a + digitVal c) acc = acc * 10 ^ l.length + digitsVal l
  | [], acc => by simp [digitsVal]
  | c :: rest, acc => by
    rw [List.foldl_cons]
    rw [digitsVal_foldl_acc rest (10 * acc + digitVal c)]
    have hd : digitsVal (c :: rest) = digitVal c * 10 ^ rest.length + digitsVal rest := by
      unfold digitsVal
      rw [List.foldl_cons]
      rw [digitsVal_foldl_acc rest (10 * 0 + digitVal c)]
      unfold digitsVal
      ring
    rw [hd, List.length_cons]
    ring

lemma digitsVal_append (l1 l2 : Str) :
    digitsVal (l1 ++ l2) = digitsVal l1 * 10 ^ l2.length + digitsVal l2 := by
  unfold digitsVal
  rw [List.foldl_append]
  exact digitsVal_foldl_acc l2 _

lemma pyFloat_digits (ip fp : Str) (hip : ip ≠ []) (hipd : ∀ c ∈ ip, c.isDigit = true)
    (hfpd : ∀ c ∈ fp, c.isDigit = true) :
    pyFloat? (ip ++ '.' :: fp) =
      some ((digitsVal ip : ℚ) + (digitsVal fp : ℚ) / 10 ^ fp.length) := by
  obtain ⟨x, ip', rfl⟩ := List.exists_cons_of_ne_nil hip
  have hx : x.isDigit = true := hipd x (List.mem_cons_self x ip')
  have hptrue : ∀ c ∈ x :: ip', (fun y => decide (y ≠ '.')) c = true :=
    fun c hc => decide_eq_true (digit_ne c '.' (hipd c hc) (by decide))
  unfold pyFloat?
  simp only []
  rw [List.cons_append, List.head?_cons]
  rw [if_neg (show ¬ ((some x : Option Char) = some '-') from
    fun h => absurd (Option.some.inj h) (digit_ne x '-' hx (by decide)))]
  rw [if_neg (show ¬ ((some x : Option Char) = some '-' ∨ (some x : Option Char) = some '+') from by
    rintro (h | h)
    · exact absurd (Option.some.inj h) (digit_ne x '-' hx (by decide))
    · exact absurd (Option.some.inj h) (digit_ne x '+' hx (by decide)))]
  rw [← List.cons_append]
  rw [takeWhile_append_all (x :: ip') ('.' :: fp) hptrue,
    dropWhile_append_all (x :: ip') ('.' :: fp) hptrue]
  rw [List.takeWhile_cons]
  rw [if_neg (show ¬ (decide (('.' : Char) ≠ '.') = true) from by decide)]
  rw [List.append_nil]
  rw [List.dropWhile_cons]
  rw [if_neg (show ¬ (decide (('.' : Char) ≠ '.') = true) from by decide)]
  simp only []
  rw [if_neg (show ¬ ('.' ∈ fp) from fun hmem => absurd (hfpd '.' hmem) (by decide))]
  rw [if_pos (show ((x :: ip' ≠ [] ∨ fp ≠ []) ∧
      (x :: ip').all Char.isDigit = true ∧ fp.all Char.isDigit = true) from
    ⟨Or.inl (List.cons_ne_nil x ip'), List.all_eq_true.mpr hipd, List.all_eq_true.mpr hfpd⟩)]
  rw [one_mul]

/-- C3: `converter_valor` is total with `0.0` as the fallback for anything
unparseable, strips the currency marker and whitespace, and applies the
Brazilian-convention separator policy: every string `R$ X.XXX,YY` (digit
string `X`, digit group `XXX`, cents `YY`) maps to the equivalent number,
a string with a comma but no dot reads the comma as the decimal point, and
garbage degrades to zero. -/
theorem c3_converter_valor_brl (xs : Str) (d1 d2 d3 e1 e2 : Char)
    (hxs : xs ≠ []) (hxsd : ∀ c ∈ xs, c.isDigit = true)
    (hd1 : d1.isDigit = true) (hd2 : d2.isDigit = true) (hd3 : d3.isDigit = true)
    (he1 : e1.isDigit = true) (he2 : e2.isDigit = true) :
    converter_valor (.s ("R$ ".data ++ (xs ++ '.' :: d1 :: d2 :: d3 :: ',' :: e1 :: [e2]))) =
      (digitsVal xs : ℚ) * 1000 + (digitsVal [d1, d2, d3] : ℚ) +
        (digitsVal [e1, e2] : ℚ) / 100 ∧
    converter_valor (.s "abc".data) = 0 ∧
    converter_valor (.s "12,5".data) = 25 / 2 := by
  refine ⟨?_, by decide, ?_⟩
  · have hchars : ∀ c ∈ xs ++ '.' :: d1 :: d2 :: d3 :: ',' :: e1 :: [e2],
        c = '.' ∨ c = ',' ∨ c.isDigit = true := by
      intro c hc
      rcases List.mem_append.mp hc with hcx | hcl
      · exact Or.inr (Or.inr (hxsd c hcx))
      · simp only [List.mem_cons, List.not_mem_nil, or_false] at hcl
        rcases hcl with rfl | rfl | rfl | rfl | rfl | rfl | rfl
        · exact Or.inl rfl
        · exact Or.inr (Or.inr hd1)
        · exact Or.inr (Or.inr hd2)
        · exact Or.inr (Or.inr hd3)
        · exact Or.inr (Or.inl rfl)
        · exact Or.inr (Or.inr he1)
        · exact Or.inr (Or.inr he2)
    have hnoR : ∀ c ∈ ' ' :: (xs ++ '.' :: d1 :: d2 :: d3 :: ',' :: e1 :: [e2]), c ≠ 'R' := by
      intro c hc
      rcases List.mem_cons.mp hc with rfl | hc2
      · decide
      · rcases hchars c hc2 with rfl | rfl | hdig
        · decide
        · decide
        · exact digit_ne c 'R' hdig (by decide)
    have hnoWS : ∀ c ∈ xs ++ '.' :: d1 :: d2 :: d3 :: ',' :: e1 :: [e2],
        c.isWhitespace = false := by
      intro c hc
      rcases hchars c hc with rfl | rfl | hdig
      · decide
      · decide
      · exact char_not_ws_of_isDigit hdig
    show convStr ("R$ ".data ++ (xs ++ '.' :: d1 :: d2 :: d3 :: ',' :: e1 :: [e2])) = _
    unfold convStr
    simp only []
    have h1 : removeRS ("R$ ".data ++ (xs ++ '.' :: d1 :: d2 :: d3 :: ',' :: e1 :: [e2])) =
        ' ' :: (xs ++ '.' :: d1 :: d2 :: d3 :: ',' :: e1 :: [e2]) := by
      have h0 : removeRS ("R$ ".data ++ (xs ++ '.' :: d1 :: d2 :: d3 :: ',' :: e1 :: [e2])) =
          removeRS (' ' :: (xs ++ '.' :: d1 :: d2 :: d3 :: ',' :: e1 :: [e2])) := rfl
      rw [h0, removeRS_of_no_R _ hnoR]
    rw [h1, pyStrip_cons_ws (by decide), pyStrip_of_no_ws hnoWS]
    rw [if_pos (show (',' ∈ xs ++ '.' :: d1 :: d2 :: d3 :: ',' :: e1 :: [e2] ∧
        '.' ∈ xs ++ '.' :: d1 :: d2 :: d3 :: ',' :: e1 :: [e2]) from ⟨by simp, by simp⟩)]
    have hfx : List.filter (fun x => decide (x ≠ '.')) xs = xs :=
      List.filter_eq_self.mpr
        (fun a ha => decide_eq_true (digit_ne a '.' (hxsd a ha) (by decide)))
    have n1 : d1 ≠ '.' := digit_ne d1 '.' hd1 (by decide)
    have n2 : d2 ≠ '.' := digit_ne d2 '.' hd2 (by decide)
    have n3 : d3 ≠ '.' := digit_ne d3 '.' hd3 (by decide)
    have n4 : e1 ≠ '.' := digit_ne e1 '.' he1 (by decide)
    have n5 : e2 ≠ '.' := digit_ne e2 '.' he2 (by decide)
    have hflit : List.filter (fun x => decide (x ≠ '.'))
        ('.' :: d1 :: d2 :: d3 :: ',' :: e1 :: [e2]) =
        d1 :: d2 :: d3 :: ',' :: e1 :: [e2] := by
      simp [List.filter_cons, n1, n2, n3, n4, n5]
    rw [List.filter_append, hfx, hflit]
    have m1 : d1 ≠ ',' := digit_ne d1 ',' hd1 (by decide)
    have m2 : d2 ≠ ',' := digit_ne d2 ',' hd2 (by decide)
    have m3 : d3 ≠ ',' := digit_ne d3 ',' hd3 (by decide)
    have m4 : e1 ≠ ',' := digit_ne e1 ',' he1 (by decide)
    have m5 : e2 ≠ ',' := digit_ne e2 ',' he2 (by decide)
    have hmx : List.map (fun c => if c = ',' then '.' else c) xs = xs :=
      map_eq_self_of xs (fun c hc => if_neg (digit_ne c ',' (hxsd c hc) (by decide)))
    have hmlit : List.map (fun c => if c = ',' then '.' else c)
        (d1 :: d2 :: d3 :: ',' :: e1 :: [e2]) = d1 :: d2 :: d3 :: '.' :: e1 :: [e2] := by
      simp [m1, m2, m3, m4, m5]
    rw [List.map_append, hmx, hmlit]
    have hre : xs ++ d1 :: d2 :: d3 :: '.' :: e1 :: [e2] =
        (xs ++ [d1, d2, d3]) ++ '.' :: e1 :: [e2] := by
      rw [List.append_assoc]
      rfl
    have hipd : ∀ c ∈ xs ++ [d1, d2, d3], c.isDigit = true := by
      intro c hc
      rcases List.mem_append.mp hc with hcx | hcl
      · exact hxsd c hcx
      · simp only [List.mem_cons, List.not_mem_nil, or_false] at hcl
        rcases hcl with rfl | rfl | rfl
        · exact hd1
        · exact hd2
        · exact hd3
    have hfpd : ∀ c ∈ e1 :: [e2], c.isDigit = true := by
      intro c hc
      simp only [List.mem_cons, List.not_mem_nil, or_false] at hc
      rcases hc with rfl | rfl
      · exact he1
      · exact he2
    rw [hre, pyFloat_digits (xs ++ [d1, d2, d3]) (e1 :: [e2]) (by simp) hipd hfpd,
      Option.getD_some, digitsVal_append xs [d1, d2, d3]]
    push_cast
    norm_num
  · show convStr "12,5".data = 25 / 2
    have hv : convStr "12,5".data = (pyFloat? (['1', '2'] ++ '.' :: ['5'])).getD 0 := rfl
    rw [hv, pyFloat_digits ['1', '2'] ['5'] (by decide) (by decide) (by decide),
      Option.getD_some]
    rw [show digitsVal ['1', '2'] = 12 from rfl, show digitsVal ['5'] = 5 from rfl]
    norm_num

/-- Witness for C3: `"R$ 1.234,56"` normalizes to `1234.56`, `"abc"` to `0`,
and `"12,5"` to `12.5`. -/
theorem c3_converter_valor_brl_witness :
    converter_valor (.s "R$ 1.234,56".data) = 123456 / 100 ∧
    converter_valor (.s "abc".data) = 0 ∧
    converter_valor (.s "12,5".data) = 25 / 2 := by
  have h := c3_converter_valor_brl ['1'] '2' '3' '4' '5' '6' (by decide) (by decide)
    (by decide) (by decide) (by decide) (by decide) (by decide)
  obtain ⟨h1, h2, h3⟩ := h
  refine ⟨?_, h2, h3⟩
  have he : "R$ 1.234,56".data =
      "R$ ".data ++ (['1'] ++ '.' :: '2' :: '3' :: '4' :: ',' :: '5' :: ['6']) := rfl
  rw [he, h1]
  rw [show digitsVal ['1'] = 1 from rfl, show digitsVal ['2', '3', '4'] = 234 from rfl,
    show digitsVal ['5', '6'] = 56 from rfl]
  norm_num
